import Mathlib

/-!
Verification of the `wopr-plugin-irc` message transport and dispatch pipeline.

JavaScript strings are sequences of UTF-16 code units; the splitter in
`src/message-utils.ts` measures UTF-8 byte lengths (`Buffer.byteLength`) while
slicing at UTF-16 indices, so the embedding models a string as a `List Nat`
of code units.  Machine integers never overflow in this code (lengths and
indices are small), so `Nat`/`Int` are used directly.
-/

namespace Irc

/-- A JavaScript string: its sequence of UTF-16 code units. -/
abbrev JStr := List Nat

/-- Code units of a Lean string literal (used only for BMP characters,
where Lean code points coincide with single UTF-16 units). -/
def jstr (s : String) : JStr := s.data.map Char.toNat

/-- The JavaScript whitespace set: the characters matched by `\s` in a
regular expression and removed by `trim`, `trimStart`, `trimEnd`. -/
def isWS (u : Nat) : Bool :=
  (decide (0x09 ≤ u) && decide (u ≤ 0x0D)) || u == 0x20 || u == 0xA0 ||
  u == 0x1680 || (decide (0x2000 ≤ u) && decide (u ≤ 0x200A)) ||
  u == 0x2028 || u == 0x2029 || u == 0x202F || u == 0x205F ||
  u == 0x3000 || u == 0xFEFF

/-- High surrogate code unit (first half of an astral character). -/
def isHighSurr (u : Nat) : Bool := decide (0xD800 ≤ u) && decide (u ≤ 0xDBFF)

/-- Low surrogate code unit (second half of an astral character). -/
def isLowSurr (u : Nat) : Bool := decide (0xDC00 ≤ u) && decide (u ≤ 0xDFFF)

/-- Any surrogate code unit. -/
def isSurr (u : Nat) : Bool := isHighSurr u || isLowSurr u

/-- UTF-8 byte length of one BMP code unit. -/
def unitLen (u : Nat) : Nat := if u < 0x80 then 1 else if u < 0x800 then 2 else 3

/-- `Buffer.byteLength(s, "utf8")`: a surrogate pair encodes as 4 bytes, a
lone surrogate as the 3-byte replacement character, other units by size. -/
def utf8Len : JStr → Nat
  | [] => 0
  | [u] => if isHighSurr u then 3 else unitLen u
  | u :: v :: rest =>
    if isHighSurr u then
      if isLowSurr v then 4 + utf8Len rest else 3 + utf8Len (v :: rest)
    else unitLen u + utf8Len (v :: rest)

/-- `String.prototype.trimStart`. -/
def trimStart (s : JStr) : JStr := s.dropWhile isWS

/-- `String.prototype.trimEnd`. -/
def trimEnd (s : JStr) : JStr := (s.reverse.dropWhile isWS).reverse

/-- `String.prototype.trim`. -/
def trim (s : JStr) : JStr := trimStart (trimEnd s)

/-- `message.split(/\r?\n/)` from `splitMessage`: cut at every LF, also
consuming a CR directly before the LF; a lone CR is ordinary text. -/
def splitLines : JStr → List JStr
  | [] => [[]]
  | u :: rest =>
    if u = 0x0A then [] :: splitLines rest
    else if u = 0x0D ∧ rest.head? = some 0x0A then [] :: splitLines rest.tail
    else
      match splitLines rest with
      | l :: ls => (u :: l) :: ls
      | [] => [[u]]
termination_by s => s.length
decreasing_by
  · simp
  · simp only [List.length_cons, List.length_tail]
    omega
  · simp

/-- `segment.lastIndexOf(" ")` in `findSplitPoint`, as an `Option`
(`none` stands for JavaScript's `-1`). -/
def lastSpaceIdx : JStr → Option Nat
  | [] => none
  | u :: rest =>
    match lastSpaceIdx rest with
    | some i => some (i + 1)
    | none => if u = 0x20 then some 0 else none

/-- The `while (end > 0 && Buffer.byteLength(text.slice(0, end)) > maxBytes) end--`
loop of `findSplitPoint`, run from a given starting value. -/
def shrinkEnd (text : JStr) (maxB : Nat) : Nat → Nat
  | 0 => 0
  | e + 1 => if maxB < utf8Len (text.take (e + 1)) then shrinkEnd text maxB e else e + 1

/-- `findSplitPoint(text, maxBytes)` from `src/message-utils.ts`.  The word
boundary is used when `lastSpace > end * 0.5`; since both sides are integers
(`end * 0.5` is exact in floating point) this is `2 * lastSpace > end`, and a
`lastIndexOf` result of `-1` never satisfies it.  `findSplitPoint` is reached
only with `maxBytes > 0`, so the budget is taken as a `Nat`. -/
def findSplitPoint (text : JStr) (maxB : Nat) : Nat :=
  let e := shrinkEnd text maxB (min text.length maxB)
  if e = 0 then 1
  else
    match lastSpaceIdx (text.take e) with
    | none => e
    | some ls => if e < 2 * ls then ls + 1 else e

lemma findSplitPoint_pos (text : JStr) (maxB : Nat) : 1 ≤ findSplitPoint text maxB := by
  unfold findSplitPoint
  simp only []
  split
  · omega
  · split
    · omega
    · split <;> omega

lemma trimStart_drop_length_lt (r : JStr) (maxB : Nat) (hr : r ≠ []) :
    (trimStart (r.drop (findSplitPoint r maxB))).length < r.length := by
  have h1 : (trimStart (r.drop (findSplitPoint r maxB))).length ≤
      (r.drop (findSplitPoint r maxB)).length := (List.dropWhile_sublist _).length_le
  have h2 := findSplitPoint_pos r maxB
  have h3 : 0 < r.length := List.length_pos.mpr hr
  simp only [List.length_drop] at h1
  omega

/-- The `while (idx < text.length && byteLength(slice(0, idx+1)) <= maxBytes) idx++`
loop of `findByteSafeIndex`, from a given `idx`. -/
def growIdx (text : JStr) (maxB : Nat) (idx : Nat) : Nat :=
  if idx < text.length ∧ utf8Len (text.take (idx + 1)) ≤ maxB then
    growIdx text maxB (idx + 1)
  else idx
termination_by text.length - idx
decreasing_by omega

/-- `findByteSafeIndex(text, maxBytes)` from `src/message-utils.ts`. -/
def findByteSafeIndex (text : JStr) (maxB : Nat) : Nat := growIdx text maxB 1

/-- The inner `while (remaining.length > 0)` loop of `splitMessage`, for one
line.  `line` is the line the loop started from: the source's safety fallback
compares `remaining.length` against `line.length`, and is modelled here
exactly as written. -/
def splitLineLoop (line : JStr) (maxB : Nat) (r : JStr) : List JStr :=
  if hr : r = [] then []
  else if utf8Len r ≤ maxB then [r]
  else
    let sp := findSplitPoint r maxB
    let chunk := trimEnd (r.take sp)
    let rem2 := trimStart (r.drop sp)
    if rem2.length = line.length then
      let sp2 := findByteSafeIndex rem2 maxB
      chunk :: rem2.take sp2 :: splitLineLoop line maxB (rem2.drop sp2)
    else
      chunk :: splitLineLoop line maxB rem2
termination_by r.length
decreasing_by
  · have h1 := trimStart_drop_length_lt r maxB hr
    have h2 : (List.drop (findByteSafeIndex (trimStart (r.drop (findSplitPoint r maxB))) maxB)
        (trimStart (r.drop (findSplitPoint r maxB)))).length ≤
        (trimStart (r.drop (findSplitPoint r maxB))).length := by
      simp only [List.length_drop]; omega
    omega
  · exact trimStart_drop_length_lt r maxB hr

/-- `splitMessage(message, maxBytes)` from `src/message-utils.ts`:
a non-positive budget returns the whole input as one chunk; otherwise each
line is split by the loop above and empty chunks are dropped at the end. -/
def splitMessage (msg : JStr) (maxBytes : Int) : List JStr :=
  if maxBytes ≤ 0 then [msg]
  else
    (((splitLines msg).map
        (fun line => splitLineLoop line maxBytes.toNat line)).flatten).filter
      (fun c => decide (0 < c.length))

/-! Byte-budget safety of the splitter, for inputs whose code units are all
non-surrogate and individually within the budget. -/

lemma one_le_unitLen (u : Nat) : 1 ≤ unitLen u := by
  unfold unitLen
  split
  · omega
  · split <;> omega

lemma utf8Len_cons {u : Nat} (l : JStr) (h : isSurr u = false) :
    utf8Len (u :: l) = unitLen u + utf8Len l := by
  have hh : isHighSurr u = false := by
    unfold isSurr at h
    exact (Bool.or_eq_false_iff.mp h).1
  cases l with
  | nil => simp [utf8Len, hh]
  | cons v rest => simp [utf8Len, hh]

lemma utf8Len_eq_sum : ∀ s : JStr, (∀ u ∈ s, isSurr u = false) →
    utf8Len s = (s.map unitLen).sum := by
  intro s
  induction s with
  | nil => intro _; simp [utf8Len]
  | cons u rest ih =>
    intro h
    rw [utf8Len_cons rest (h u (by simp))]
    simp [ih (fun v hv => h v (by simp [hv]))]

lemma sum_le_of_sublist {a b : List Nat} (h : List.Sublist a b) : a.sum ≤ b.sum := by
  induction h with
  | slnil => simp
  | cons x h ih => simp only [List.sum_cons]; omega
  | cons₂ x h ih => simp only [List.sum_cons]; omega

lemma utf8Len_le_of_sublist {a b : JStr} (hb : ∀ u ∈ b, isSurr u = false)
    (h : List.Sublist a b) : utf8Len a ≤ utf8Len b := by
  have ha : ∀ u ∈ a, isSurr u = false := fun u hu => hb u (h.subset hu)
  rw [utf8Len_eq_sum a ha, utf8Len_eq_sum b hb]
  exact sum_le_of_sublist (h.map unitLen)

lemma take_one_fits (x : JStr) (maxB : Nat)
    (hu : ∀ u ∈ x, isSurr u = false ∧ unitLen u ≤ maxB) :
    utf8Len (x.take 1) ≤ maxB := by
  cases x with
  | nil => simp [utf8Len]
  | cons u rest =>
    have h := hu u (by simp)
    have ht : (u :: rest).take 1 = [u] := rfl
    rw [ht, utf8Len_cons [] h.1]
    have : utf8Len [] = 0 := rfl
    omega

lemma shrinkEnd_spec (text : JStr) (maxB : Nat) (h1 : utf8Len (text.take 1) ≤ maxB) :
    ∀ k, 1 ≤ k →
      1 ≤ shrinkEnd text maxB k ∧ utf8Len (text.take (shrinkEnd text maxB k)) ≤ maxB := by
  intro k
  induction k with
  | zero => intro h; omega
  | succ e ih =>
    intro _
    unfold shrinkEnd
    split
    · rename_i hgt
      rcases Nat.eq_zero_or_pos e with he0 | hepos
      · subst he0
        exact absurd hgt (by simpa using Nat.not_lt.mpr h1)
      · exact ih hepos
    · rename_i hle
      exact ⟨by omega, Nat.not_lt.mp hle⟩

lemma lastSpaceIdx_lt : ∀ s : JStr, ∀ i, lastSpaceIdx s = some i → i < s.length := by
  intro s
  induction s with
  | nil => intro i h; simp [lastSpaceIdx] at h
  | cons u rest ih =>
    intro i h
    rw [show lastSpaceIdx (u :: rest) = (match lastSpaceIdx rest with
        | some j => some (j + 1)
        | none => if u = 0x20 then some 0 else none) from rfl] at h
    cases hr : lastSpaceIdx rest with
    | some j =>
      rw [hr] at h
      have hj := ih j hr
      have hji : j + 1 = i := by simpa using h
      simp only [List.length_cons]
      omega
    | none =>
      rw [hr] at h
      by_cases hu : u = 0x20
      · rw [if_pos hu] at h
        have h0 : (0 : Nat) = i := by simpa using h
        simp only [List.length_cons]
        omega
      · rw [if_neg hu] at h
        exact absurd h (by simp)

lemma findSplitPoint_fits (r : JStr) (maxB : Nat) (hne : r ≠ [])
    (hu : ∀ u ∈ r, isSurr u = false ∧ unitLen u ≤ maxB) :
    utf8Len (r.take (findSplitPoint r maxB)) ≤ maxB := by
  have h1 : utf8Len (r.take 1) ≤ maxB := take_one_fits r maxB hu
  have hlen : 1 ≤ r.length := List.length_pos.mpr hne
  have hmaxpos : 1 ≤ maxB := by
    cases r with
    | nil => exact absurd rfl hne
    | cons u rest =>
      have h := hu u (by simp)
      have := one_le_unitLen u
      omega
  have hs := shrinkEnd_spec r maxB h1 (min r.length maxB) (by omega)
  have hTakeNoSurr : ∀ u ∈ r.take (shrinkEnd r maxB (min r.length maxB)),
      isSurr u = false := fun u hu2 => (hu u ((List.take_sublist _ _).subset hu2)).1
  unfold findSplitPoint
  simp only []
  split
  · exact h1
  · split
    · exact hs.2
    · rename_i hzero ls hls
      split
      · rename_i hcond
        have hlt := lastSpaceIdx_lt _ ls hls
        have hle : ls + 1 ≤ shrinkEnd r maxB (min r.length maxB) := by
          simp only [List.length_take] at hlt
          omega
        have heq : r.take (ls + 1) =
            (r.take (shrinkEnd r maxB (min r.length maxB))).take (ls + 1) := by
          rw [List.take_take]
          congr 1
          omega
        rw [heq]
        exact le_trans
          (utf8Len_le_of_sublist hTakeNoSurr (List.take_sublist _ _)) hs.2
      · exact hs.2

lemma growIdx_fits (text : JStr) (maxB : Nat) :
    ∀ idx, utf8Len (text.take idx) ≤ maxB →
      utf8Len (text.take (growIdx text maxB idx)) ≤ maxB := by
  intro idx
  induction idx using growIdx.induct text maxB with
  | case1 idx hcond ih =>
    intro _
    rw [growIdx, if_pos hcond]
    exact ih hcond.2
  | case2 idx hcond =>
    intro h
    rw [growIdx, if_neg hcond]
    exact h

lemma trimEnd_sublist (s : JStr) : List.Sublist (trimEnd s) s := by
  have h := (List.dropWhile_sublist (l := s.reverse) isWS).reverse
  simpa [trimEnd] using h

lemma trimStart_sublist (s : JStr) : List.Sublist (trimStart s) s :=
  List.dropWhile_sublist _

lemma splitLineLoop_safe (maxB : Nat) (line : JStr) :
    ∀ (n : Nat) (r : JStr), r.length ≤ n →
      (∀ u ∈ r, isSurr u = false ∧ unitLen u ≤ maxB) →
      ∀ c ∈ splitLineLoop line maxB r,
        utf8Len c ≤ maxB ∧ ∀ u ∈ c, isSurr u = false := by
  intro n
  induction n with
  | zero =>
    intro r hlen hu c hc
    have hr0 : r = [] := List.length_eq_zero.mp (by omega)
    subst hr0
    rw [splitLineLoop] at hc
    simp at hc
  | succ m ih =>
    intro r hlen hu c hc
    rw [splitLineLoop] at hc
    by_cases hr : r = []
    · simp [hr] at hc
    · rw [dif_neg hr] at hc
      by_cases hfit : utf8Len r ≤ maxB
      · rw [if_pos hfit] at hc
        simp only [List.mem_singleton] at hc
        subst hc
        exact ⟨hfit, fun u hu2 => (hu u hu2).1⟩
      · rw [if_neg hfit] at hc
        have hchunk : utf8Len (trimEnd (r.take (findSplitPoint r maxB))) ≤ maxB ∧
            ∀ u ∈ trimEnd (r.take (findSplitPoint r maxB)), isSurr u = false := by
          have hTakeNoSurr : ∀ u ∈ r.take (findSplitPoint r maxB), isSurr u = false :=
            fun u hu2 => (hu u ((List.take_sublist _ _).subset hu2)).1
          refine ⟨le_trans (utf8Len_le_of_sublist hTakeNoSurr (trimEnd_sublist _)) ?_,
            fun u hu2 => hTakeNoSurr u ((trimEnd_sublist _).subset hu2)⟩
          exact findSplitPoint_fits r maxB hr hu
        have hrem2u : ∀ u ∈ trimStart (r.drop (findSplitPoint r maxB)),
            isSurr u = false ∧ unitLen u ≤ maxB :=
          fun u hu2 => hu u ((List.drop_sublist _ _).subset ((trimStart_sublist _).subset hu2))
        have hrem2len := trimStart_drop_length_lt r maxB hr
        simp only [List.mem_cons] at hc
        split at hc
        · simp only [List.mem_cons] at hc
          rcases hc with rfl | rfl | hc
          · exact hchunk
          · constructor
            · exact growIdx_fits _ maxB 1 (take_one_fits _ maxB hrem2u)
            · exact fun u hu2 => (hrem2u u ((List.take_sublist _ _).subset hu2)).1
          · refine ih _ ?_ (fun u hu2 => hrem2u u ((List.drop_sublist _ _).subset hu2)) c hc
            simp only [List.length_drop]
            omega
        · simp only [List.mem_cons] at hc
          rcases hc with rfl | hc
          · exact hchunk
          · exact ih _ (by omega) hrem2u c hc

lemma splitLines_mem (s : JStr) : ∀ l ∈ splitLines s, ∀ u ∈ l, u ∈ s := by
  induction s using splitLines.induct with
  | case1 =>
    intro l hl u hu
    simp only [splitLines, List.mem_singleton] at hl
    subst hl
    simp at hu
  | case2 rest ih =>
    intro l hl v hv
    rw [splitLines, if_pos rfl] at hl
    simp only [List.mem_cons] at hl
    rcases hl with rfl | hl
    · simp at hv
    · exact List.mem_cons_of_mem _ (ih l hl v hv)
  | case3 u0 rest h10 hCR ih =>
    intro l hl v hv
    rw [splitLines, if_neg h10, if_pos hCR] at hl
    simp only [List.mem_cons] at hl
    rcases hl with rfl | hl
    · simp at hv
    · exact List.mem_cons_of_mem _ ((List.tail_sublist rest).subset (ih l hl v hv))
  | case4 u0 rest h10 hnCR l0 ls heq ih =>
    intro l hl v hv
    rw [splitLines, if_neg h10, if_neg hnCR, heq] at hl
    simp only [List.mem_cons] at hl
    rcases hl with rfl | hl
    · simp only [List.mem_cons] at hv
      rcases hv with rfl | hv
      · simp
      · exact List.mem_cons_of_mem _ (ih l0 (by rw [heq]; simp) v hv)
    · exact List.mem_cons_of_mem _ (ih l (by rw [heq]; simp [hl]) v hv)
  | case5 u0 rest h10 hnCR heq ih =>
    intro l hl v hv
    rw [splitLines, if_neg h10, if_neg hnCR, heq] at hl
    simp only [List.mem_singleton] at hl
    subst hl
    simp only [List.mem_singleton] at hv
    subst hv
    simp

/-- C1 counterexample: the claim fails as stated.  With maxBytes 1 and input
the single two-byte character U+00E9, splitMessage returns that character as
one chunk of UTF-8 length 2 > 1 (the `return 1` floor in findSplitPoint
advances by one unit regardless of the budget).  With maxBytes 7 and input
"abcd" followed by the astral character U+1F4A9 (surrogate pair D83D DCA9),
the cut lands between the two surrogates, so a chunk boundary falls inside a
multi-byte character. -/
theorem C1_cex :
    (¬ ∀ c ∈ splitMessage [0xE9] (1 : Int), utf8Len c ≤ 1) ∧
    (∃ c ∈ splitMessage [0x61, 0x62, 0x63, 0x64, 0xD83D, 0xDCA9] (7 : Int),
      ∃ u ∈ c, isSurr u = true) := by
  have e1 : splitMessage [0xE9] 1 = [[0xE9]] := by
    rw [splitMessage]
    norm_num [splitLines]
    rw [splitLineLoop]
    norm_num [utf8Len, unitLen, isHighSurr, findSplitPoint, shrinkEnd, lastSpaceIdx,
              trimEnd, trimStart, isWS]
    rw [splitLineLoop]
    simp
  have e2 : splitMessage [0x61, 0x62, 0x63, 0x64, 0xD83D, 0xDCA9] 7 =
      [[0x61, 0x62, 0x63, 0x64, 0xD83D], [0xDCA9]] := by
    rw [splitMessage]
    norm_num [splitLines]
    rw [splitLineLoop]
    norm_num [utf8Len, unitLen, isHighSurr, isLowSurr, findSplitPoint, shrinkEnd,
              lastSpaceIdx, trimEnd, trimStart, isWS]
    rw [splitLineLoop]
    norm_num [utf8Len, unitLen, isHighSurr, isLowSurr]
    simp
  constructor
  · rw [e1]
    decide
  · rw [e2]
    decide

lemma splitMessage_budget_safe (s : JStr) (n : Nat) (hn : 0 < n)
    (hu : ∀ u ∈ s, isSurr u = false ∧ unitLen u ≤ n) :
    ∀ c ∈ splitMessage s (n : Int), utf8Len c ≤ n ∧ ∀ u ∈ c, isSurr u = false := by
  intro c hc
  rw [splitMessage, if_neg (by omega : ¬(n : Int) ≤ 0)] at hc
  simp only [List.mem_filter, List.mem_flatten, List.mem_map] at hc
  obtain ⟨⟨l, ⟨line, hline, rfl⟩, hcl⟩, -⟩ := hc
  have ht : (n : Int).toNat = n := by simp
  rw [ht] at hcl
  exact splitLineLoop_safe n line line.length line (le_refl _)
    (fun u hu2 => hu u (splitLines_mem s line hline u hu2)) c hcl

/-- C1 (amended): for every input whose code units are all non-surrogate
(no astral characters) and whose characters each fit the budget, and for every
maxBytes > 0, every chunk returned by splitMessage has UTF-8 byte length at
most maxBytes and consists only of non-surrogate units, so no chunk boundary
falls inside a multi-byte character. -/
theorem C1_splitMessage_budget (s : JStr) (n : Nat) (hn : 0 < n)
    (hu : ∀ u ∈ s, isSurr u = false ∧ unitLen u ≤ n) :
    ∀ c ∈ splitMessage s (n : Int), utf8Len c ≤ n ∧ ∀ u ∈ c, isSurr u = false :=
  splitMessage_budget_safe s n hn hu

/-- Witness for C1 (amended) at the concrete input "hello world", budget 6. -/
theorem C1_splitMessage_budget_witness :
    0 < 6 ∧
    (∀ u ∈ ([104, 101, 108, 108, 111, 32, 119, 111, 114, 108, 100] : JStr),
      isSurr u = false ∧ unitLen u ≤ 6) ∧
    ∀ c ∈ splitMessage [104, 101, 108, 108, 111, 32, 119, 111, 114, 108, 100] (6 : Int),
      utf8Len c ≤ 6 ∧ ∀ u ∈ c, isSurr u = false :=
  ⟨by decide, by decide,
    C1_splitMessage_budget [104, 101, 108, 108, 111, 32, 119, 111, 114, 108, 100] 6
      (by decide) (by decide)⟩

/-- C3 counterexample: at maxBytes = 0 the `maxBytes <= 0` fallback returns
the whole (empty) input as one chunk, so splitMessage("", 0) is a one-element
sequence holding the empty string, not the empty sequence the claim states. -/
theorem C3_cex : splitMessage [] 0 = [[]] ∧ ([[]] : List JStr) ≠ [] := by
  constructor
  · rw [splitMessage]
    norm_num
  · simp

/-- C3 (amended): for every maxBytes > 0, splitMessage("", maxBytes) returns
the empty sequence of chunks; for maxBytes ≤ 0 (0 and negative values) it
returns a single empty chunk, the defensive whole-input fallback. -/
theorem C3_splitMessage_empty (n : Int) :
    (0 < n → splitMessage [] n = []) ∧ (n ≤ 0 → splitMessage [] n = [[]]) := by
  constructor
  · intro hn
    rw [splitMessage, if_neg (by omega)]
    norm_num [splitLines]
    rw [splitLineLoop]
    simp
  · intro hn
    rw [splitMessage, if_pos hn]

/-- Witness for C3 (amended) at N = 5 and N = 0. -/
theorem C3_splitMessage_empty_witness :
    splitMessage [] 5 = [] ∧ splitMessage [] 0 = [[]] :=
  ⟨(C3_splitMessage_empty 5).1 (by decide), (C3_splitMessage_empty 0).2 (by decide)⟩

/-! Formatting codec and tokenization used by the inbound pipeline
(src/message-utils.ts stripFormatting, src/channel-provider.ts). -/

/-- ASCII digit, as matched by `\d`. -/
def isDigit (u : Nat) : Bool := decide (0x30 ≤ u) && decide (u ≤ 0x39)

/-- Drop one leading digit if present. -/
def dropDigit (s : JStr) : JStr :=
  match s with
  | u :: rest => if isDigit u then rest else s
  | [] => s

/-- Consume a leading `\d{1,2}` greedily; no digit means nothing consumed. -/
def dropColorNum (s : JStr) : JStr :=
  match s with
  | u :: rest => if isDigit u then dropDigit rest else s
  | [] => s

/-- After the color introducer 0x03, the optional `(\d{1,2}(,\d{1,2})?)?`
of IRC_FORMAT_REGEX: one or two foreground digits, then a comma and one or
two background digits only when a digit follows the comma. -/
def dropColorSpec (s : JStr) : JStr :=
  match s with
  | u :: _ =>
    if isDigit u then
      match dropColorNum s with
      | 0x2C :: t =>
        if (match t with | d :: _ => isDigit d | [] => false) then dropColorNum t
        else 0x2C :: t
      | s1 => s1
    else s
  | [] => []

lemma dropDigit_length_le (s : JStr) : (dropDigit s).length ≤ s.length := by
  unfold dropDigit
  split
  · split <;> simp
  · omega

lemma dropColorNum_length_le (s : JStr) : (dropColorNum s).length ≤ s.length := by
  unfold dropColorNum
  split
  · rename_i u rest
    split
    · exact le_trans (dropDigit_length_le rest) (by simp)
    · omega
  · omega

lemma dropColorSpec_length_le (s : JStr) : (dropColorSpec s).length ≤ s.length := by
  unfold dropColorSpec
  split
  · rename_i u rest
    split
    · have h1 := dropColorNum_length_le (u :: rest)
      split
      · rename_i t heq
        rw [heq] at h1
        simp only [List.length_cons] at h1 ⊢
        split
        · have h2 := dropColorNum_length_le t
          omega
        · simp only [List.length_cons]
          omega
      · exact dropColorNum_length_le (u :: rest)
    · exact le_refl _
  · simp

/-- `stripFormatting` (src/message-utils.ts lines 13-15): removes every match
of IRC_FORMAT_REGEX — the bold, italic, underline, strikethrough, monospace,
reverse and reset control units, and the color introducer with its optional
digit specification. -/
def stripFormatting : JStr → JStr
  | [] => []
  | u :: rest =>
    if u = 0x02 ∨ u = 0x1D ∨ u = 0x1F ∨ u = 0x1E ∨ u = 0x11 ∨ u = 0x16 ∨ u = 0x0F then
      stripFormatting rest
    else if u = 0x03 then stripFormatting (dropColorSpec rest)
    else u :: stripFormatting rest
termination_by s => s.length
decreasing_by
  · simp
  · have := dropColorSpec_length_le rest
    simp only [List.length_cons]
    omega
  · simp

/-- `String.prototype.toLowerCase`, modelled on the ASCII range (the names and
messages this code compares are ASCII). -/
def toLowerAscii (s : JStr) : JStr :=
  s.map (fun u => if 0x41 ≤ u ∧ u ≤ 0x5A then u + 0x20 else u)

/-- `text.split(/\s+/)`: tokens are the maximal whitespace-free runs; a
leading (trailing) whitespace run contributes a leading (trailing) empty
token, and the empty string splits to one empty token.  In the recursive call
the head of the remainder is known to be whitespace (dropWhile of its
negation stopped there), so skipping that unit and then the rest of the
whitespace run consumes exactly the `\s+` match. -/
def jsSplitWs (s : JStr) : List JStr :=
  match h : s.dropWhile (fun u => !isWS u) with
  | [] => [s.takeWhile (fun u => !isWS u)]
  | _ :: rs => s.takeWhile (fun u => !isWS u) :: jsSplitWs (rs.dropWhile isWS)
termination_by s.length
decreasing_by
  have h1 : (s.dropWhile (fun u => !isWS u)).length ≤ s.length :=
    (List.dropWhile_sublist _).length_le
  rw [h] at h1
  have h2 : (rs.dropWhile isWS).length ≤ rs.length := (List.dropWhile_sublist _).length_le
  simp only [List.length_cons] at h1
  omega

/-! Dispatch registry and handlers (src/channel-provider.ts). -/

/-- Result of awaiting an async handler: normal completion, or a thrown value
rendered to the string JavaScript `String(error)` would produce. -/
inductive HRes where
  | ok : HRes
  | thrown : JStr → HRes
deriving DecidableEq

/-- The ChannelCommandContext fields observed by a command handler; the reply
closure and getBotUsername capability are opaque and not part of this data. -/
structure CmdCtx where
  channel : JStr
  channelType : JStr
  sender : JStr
  args : List JStr

/-- A registered channel command. -/
structure Command where
  name : JStr
  description : JStr
  handler : CmdCtx → HRes

/-- The ChannelMessageContext fields observed by a parser handler. -/
structure MsgCtx where
  channel : JStr
  channelType : JStr
  sender : JStr
  content : JStr

/-- A registered message parser; the regular-expression and predicate pattern
forms are both modelled as a boolean predicate on the content. -/
structure MsgParser where
  id : JStr
  pat : JStr → Bool
  handler : MsgCtx → HRes

/-- JavaScript `Map.get`: first (unique) entry with the key. -/
def mapGet {α : Type} (m : List (JStr × α)) (k : JStr) : Option α :=
  match m with
  | [] => none
  | (k2, v) :: rest => if k2 = k then some v else mapGet rest k

/-- JavaScript `Map.set`: overwrite in place, or append a new entry. -/
def mapSet {α : Type} (m : List (JStr × α)) (k : JStr) (v : α) : List (JStr × α) :=
  match m with
  | [] => [(k, v)]
  | (k2, v2) :: rest => if k2 = k then (k, v) :: rest else (k2, v2) :: mapSet rest k v

/-- `ircChannelProvider.registerCommand`: `registeredCommands.set(cmd.name, cmd)`
— the command is stored under its exact name, with no case folding. -/
def registerCommand (reg : List (JStr × Command)) (cmd : Command) : List (JStr × Command) :=
  mapSet reg cmd.name cmd

/-- The catch-block reply text of handleRegisteredCommand:
"Error executing " ++ commandPrefix ++ cmdName ++ ": " ++ error. -/
def cmdErrReply (pfx cmdName e : JStr) : JStr :=
  jstr "Error executing " ++ pfx ++ cmdName ++ jstr ": " ++ e

/-- The parse phase of handleRegisteredCommand (src/channel-provider.ts lines
106-111): trim the content, require the command prefix, split the rest on
whitespace runs; the first token lowercased is the command name, the
remaining tokens are the args. -/
def cmdParse (content pfx : JStr) : Option (JStr × List JStr) :=
  if pfx.isPrefixOf (trim content) then
    some (toLowerAscii ((jsSplitWs ((trim content).drop pfx.length)).headD []),
      (jsSplitWs ((trim content).drop pfx.length)).drop 1)
  else none

/-- Observable outcome of handleRegisteredCommand: the returned boolean, the
name whose handler ran, the replies the dispatcher itself issued through the
reply closure, and whether an error was logged. -/
structure CmdDispatch where
  handled : Bool
  invoked : Option JStr
  replies : List JStr
  logged : Bool
deriving DecidableEq

/-- `handleRegisteredCommand` (src/channel-provider.ts lines 99-135). -/
def handleRegisteredCommand (reg : List (JStr × Command))
    (target sender content pfx : JStr) : CmdDispatch :=
  match cmdParse content pfx with
  | none => ⟨false, none, [], false⟩
  | some (cmdName, args) =>
    match mapGet reg cmdName with
    | none => ⟨false, none, [], false⟩
    | some cmd =>
      match cmd.handler ⟨target, jstr "irc", sender, args⟩ with
      | .ok => ⟨true, some cmdName, [], false⟩
      | .thrown e => ⟨true, some cmdName, [cmdErrReply pfx cmdName e], true⟩

/-- Observable outcome of handleRegisteredParsers: the returned boolean, the
ids whose patterns were evaluated in order, the id whose handler was invoked,
and whether a parser error was logged. -/
structure ParserDispatch where
  handled : Bool
  tested : List JStr
  invoked : Option JStr
  logged : Bool
deriving DecidableEq

/-- `handleRegisteredParsers` (src/channel-provider.ts lines 140-179):
iterate parsers in registration order; on the first pattern match invoke that
handler and return — true on success, false (after logging) on a throw; with
no match return false. -/
def handleRegisteredParsers (ps : List MsgParser)
    (target sender content : JStr) : ParserDispatch :=
  match ps with
  | [] => ⟨false, [], none, false⟩
  | p :: rest =>
    if p.pat content then
      match p.handler ⟨target, jstr "irc", sender, content⟩ with
      | .ok => ⟨true, [p.id], some p.id, false⟩
      | .thrown _ => ⟨false, [p.id], some p.id, true⟩
    else
      let r := handleRegisteredParsers rest target sender content
      ⟨r.handled, p.id :: r.tested, r.invoked, r.logged⟩

/-! Outbound sender paths (src/channel-provider.ts send, src/index.ts replyFn)
and the inbound pipeline (src/index.ts handleIncomingMessage). -/

/-- Observable outcome of a send: the `say(channel, chunk)` calls created (in
order), whether they were routed through the flood protector, and whether the
call threw "IRC client not initialized". -/
structure SendOut where
  sayCalls : List (JStr × JStr)
  enqueued : Bool
  threw : Bool
deriving DecidableEq

/-- `ircChannelProvider.send` (src/channel-provider.ts lines 76-89): throws
without a client; otherwise splits the content at the raw `maxMsgLength` and
says every chunk whose trim is nonempty, via the pacer when one is set. -/
def ircSend (clientPresent pacerPresent : Bool) (maxMsgLength : Int)
    (channel content : JStr) : SendOut :=
  if !clientPresent then ⟨[], pacerPresent, true⟩
  else
    ⟨((splitMessage content maxMsgLength).filter
        (fun c => decide (0 < (trim c).length))).map (fun c => (channel, c)),
      pacerPresent, false⟩

/-- Modelled from the spec (sections 4.7 and 6): the missing-from-src variant
of the outbound sender the spec describes, which splits under an effective
budget of the configured maximum minus the fixed 100-byte protocol-overhead
reserve.  Present only for comparison with `ircSend`, which is what
src/channel-provider.ts implements. -/
def ircSendSpec (clientPresent pacerPresent : Bool) (maxMsgLength : Int)
    (channel content : JStr) : SendOut :=
  if !clientPresent then ⟨[], pacerPresent, true⟩
  else
    ⟨((splitMessage content (maxMsgLength - 100)).filter
        (fun c => decide (0 < (trim c).length))).map (fun c => (channel, c)),
      pacerPresent, false⟩

/-- The reply closure of handleIncomingMessage (src/index.ts lines 314-327):
silently does nothing without a client; otherwise splits the text at the
configured maxMessageLength (512 with no current config) and says every chunk
whose trim is nonempty to the captured channel. -/
def replyFn (clientPresent : Bool) (cfgMaxLen : Option Int) (channel msg : JStr) :
    List (JStr × JStr) :=
  if !clientPresent then []
  else
    ((splitMessage msg (match cfgMaxLen with | some v => v | none => 512)).filter
      (fun c => decide (0 < (trim c).length))).map (fun c => (channel, c))

/-- Which pipeline stage consumed the message. -/
inductive Stage where
  | command : Stage
  | parser : Stage
  | inject : Stage
deriving DecidableEq

/-- The channel identifier used for dispatch (src/index.ts lines 299-300):
the sender's nick when the target equals the bot's own current nick (a
private message), else the original target.  `botNick` is `none` when the
client reference is null, in which case the comparison is false. -/
def inboundChannel (botNick : Option JStr) (eventNick eventTarget : JStr) : JStr :=
  if botNick = some eventTarget then eventNick else eventTarget

/-- Observable outcome of handleIncomingMessage: the channel value captured
by the contexts and the reply closure, the consuming stage, the command
dispatch outcome, the parser patterns tested, the parser handler invoked, and
whether the generic event/inject path was reached. -/
structure PipelineResult where
  usedChannel : JStr
  stage : Stage
  cmdRes : CmdDispatch
  parserTested : List JStr
  parserInvoked : Option JStr
  injectCalled : Bool

/-- `handleIncomingMessage` (src/index.ts lines 298-368): compute the channel,
strip formatting, try command dispatch, then parser dispatch, then fall
through to the host event emit and inject path (when a host context is
present). -/
def handleIncomingMessage (cmds : List (JStr × Command)) (ps : List MsgParser)
    (ctxPresent : Bool) (botNick : Option JStr)
    (eventNick eventTarget rawMessage pfx : JStr) : PipelineResult :=
  let channel := inboundChannel botNick eventNick eventTarget
  let message := stripFormatting rawMessage
  let cmdRes := handleRegisteredCommand cmds channel eventNick message pfx
  if cmdRes.handled then ⟨channel, .command, cmdRes, [], none, false⟩
  else
    let parserRes := handleRegisteredParsers ps channel eventNick message
    if parserRes.handled then
      ⟨channel, .parser, cmdRes, parserRes.tested, parserRes.invoked, false⟩
    else
      ⟨channel, .inject, cmdRes, parserRes.tested, parserRes.invoked, ctxPresent⟩

/-! Plugin shutdown (src/index.ts lines 208-227) and the nick handler
(src/index.ts lines 275-282). -/

/-- The module-level state touched by `plugin.shutdown`, together with
counters for its observable external calls.  The command and parser
registries live in src/channel-provider.ts as module-level Maps. -/
structure PluginState where
  floodProtOwned : Bool
  floodProtRef : Bool
  hostCtx : Bool
  client : Bool
  clientRef : Bool
  cfg : Bool
  cmds : List (JStr × Command)
  parsers : List MsgParser
  quitCalls : Nat
  pacerClearCalls : Nat
  unregisterProviderCalls : Nat

/-- `plugin.shutdown` (src/index.ts lines 208-227): clear and null the flood
protector, null the provider's pacer reference, unregister the channel
provider when a host context is present, quit and null the client, null the
provider's client reference, null the config and the context.  The command
and parser registries are not touched. -/
def shutdown (s : PluginState) : PluginState :=
  let s1 := if s.floodProtOwned then
      { s with pacerClearCalls := s.pacerClearCalls + 1, floodProtOwned := false }
    else s
  let s2 := { s1 with floodProtRef := false }
  let s3 := if s2.hostCtx then
      { s2 with unregisterProviderCalls := s2.unregisterProviderCalls + 1 }
    else s2
  let s4 := if s3.client then
      { s3 with quitCalls := s3.quitCalls + 1, client := false }
    else s3
  let s5 := { s4 with clientRef := false }
  { s5 with cfg := false, hostCtx := false }

/-- The `nick` event handler (src/index.ts lines 275-282): when the event's
nick differs from the bot's current nick and the current nick differs from
the configured desired nick, call changeNick with the desired nick; the
returned value is the changeNick argument, `none` meaning no call. -/
def onNickEvent (eventNick currentNick desiredNick : JStr) : Option JStr :=
  if eventNick ≠ currentNick ∧ currentNick ≠ desiredNick then some desiredNick
  else none

/-- C2 counterexample: with configured max length 101, ircChannelProvider.send
splits at the raw maximum and emits the two-byte content "ab" as one chunk,
while a sender obeying the claimed effective budget 101 - 100 = 1 (the
spec-modelled ircSendSpec) would emit two one-byte chunks; the reply closure
behaves like send.  No 100-byte reserve exists in the outbound path. -/
theorem C2_cex :
    ircSend true false 101 [0x23] [0x61, 0x62] =
      ⟨[([0x23], [0x61, 0x62])], false, false⟩ ∧
    ircSendSpec true false 101 [0x23] [0x61, 0x62] =
      ⟨[([0x23], [0x61]), ([0x23], [0x62])], false, false⟩ ∧
    ircSend true false 101 [0x23] [0x61, 0x62] ≠
      ircSendSpec true false 101 [0x23] [0x61, 0x62] ∧
    utf8Len [0x61, 0x62] = 2 ∧ ¬((2 : Int) ≤ 101 - 100) ∧
    replyFn true (some 101) [0x23] [0x61, 0x62] = [([0x23], [0x61, 0x62])] := by
  have e1 : splitMessage [0x61, 0x62] 101 = [[0x61, 0x62]] := by
    rw [splitMessage]
    norm_num [splitLines]
    rw [splitLineLoop]
    norm_num [utf8Len, unitLen, isHighSurr]
    simp
  have e2 : splitMessage [0x61, 0x62] 1 = [[0x61], [0x62]] := by
    rw [splitMessage]
    norm_num [splitLines]
    rw [splitLineLoop]
    norm_num [utf8Len, unitLen, isHighSurr, findSplitPoint, shrinkEnd, lastSpaceIdx,
              trimEnd, trimStart, isWS]
    rw [splitLineLoop]
    norm_num [utf8Len, unitLen, isHighSurr]
    simp
  have h1 : ircSend true false 101 [0x23] [0x61, 0x62] =
      ⟨[([0x23], [0x61, 0x62])], false, false⟩ := by
    simp [ircSend, e1, trim, trimStart, trimEnd, isWS]
  have h2 : ircSendSpec true false 101 [0x23] [0x61, 0x62] =
      ⟨[([0x23], [0x61]), ([0x23], [0x62])], false, false⟩ := by
    have : (101 : Int) - 100 = 1 := by norm_num
    simp [ircSendSpec, this, e2, trim, trimStart, trimEnd, isWS]
  refine ⟨h1, h2, ?_, by decide, by decide, ?_⟩
  · rw [h1, h2]
    simp
  · simp [replyFn, e1, trim, trimStart, trimEnd, isWS]

/-- C2 (amended): the outbound send path — ircChannelProvider.send and the
inline reply closure — splits content under the raw configured maximum
message length, with no protocol-overhead reserve subtracted: under the C1
side conditions every emitted chunk fits the raw maximum (not a reduced
budget) and is addressed to the requested channel. -/
theorem C2_send_raw_budget (pacer : Bool) (n : Nat) (hn : 0 < n)
    (channel content : JStr)
    (hu : ∀ u ∈ content, isSurr u = false ∧ unitLen u ≤ n) :
    (∀ p ∈ (ircSend true pacer (n : Int) channel content).sayCalls,
      p.1 = channel ∧ utf8Len p.2 ≤ n) ∧
    (∀ p ∈ replyFn true (some (n : Int)) channel content,
      p.1 = channel ∧ utf8Len p.2 ≤ n) := by
  have key := splitMessage_budget_safe content n hn hu
  constructor
  · intro p hp
    simp only [ircSend, Bool.not_true, Bool.false_eq_true, if_false, List.mem_map,
      List.mem_filter] at hp
    obtain ⟨c, ⟨hc, -⟩, rfl⟩ := hp
    exact ⟨rfl, (key c hc).1⟩
  · intro p hp
    simp only [replyFn, Bool.not_true, Bool.false_eq_true, if_false, List.mem_map,
      List.mem_filter] at hp
    obtain ⟨c, ⟨hc, -⟩, rfl⟩ := hp
    exact ⟨rfl, (key c hc).1⟩

/-- Witness for C2 (amended) at budget 5, channel "#", content "hi". -/
theorem C2_send_raw_budget_witness :
    0 < 5 ∧ (∀ u ∈ ([104, 105] : JStr), isSurr u = false ∧ unitLen u ≤ 5) ∧
    ((∀ p ∈ (ircSend true false (5 : Int) [0x23] [104, 105]).sayCalls,
      p.1 = [0x23] ∧ utf8Len p.2 ≤ 5) ∧
    (∀ p ∈ replyFn true (some (5 : Int)) [0x23] [104, 105],
      p.1 = [0x23] ∧ utf8Len p.2 ≤ 5)) :=
  ⟨by decide, by decide,
    C2_send_raw_budget false 5 (by decide) [0x23] [104, 105] (by decide)⟩

/-- C4: when dispatch resolves to a registered command whose handler throws,
handleRegisteredCommand logs the error, issues exactly one reply through the
reply closure — "Error executing " with the prefix, the command name and the
error appended — and reports the message handled, so the pipeline stops at
the command stage: no parser is tried and the generic inject path is not
reached. -/
theorem C4_command_error_contained
    (cmds : List (JStr × Command)) (ps : List MsgParser) (ctxPresent : Bool)
    (botNick : Option JStr) (eventNick eventTarget raw pfx : JStr)
    (cmdName : JStr) (args : List JStr) (cmd : Command) (e : JStr)
    (hparse : cmdParse (stripFormatting raw) pfx = some (cmdName, args))
    (hfound : mapGet cmds cmdName = some cmd)
    (hthrow : cmd.handler ⟨inboundChannel botNick eventNick eventTarget,
        jstr "irc", eventNick, args⟩ = HRes.thrown e) :
    (handleIncomingMessage cmds ps ctxPresent botNick eventNick eventTarget raw pfx).stage
        = Stage.command ∧
    (handleIncomingMessage cmds ps ctxPresent botNick eventNick eventTarget raw pfx).cmdRes
        = ⟨true, some cmdName, [cmdErrReply pfx cmdName e], true⟩ ∧
    (handleIncomingMessage cmds ps ctxPresent botNick eventNick eventTarget raw pfx).parserTested
        = [] ∧
    (handleIncomingMessage cmds ps ctxPresent botNick eventNick eventTarget raw pfx).injectCalled
        = false := by
  have hc : handleRegisteredCommand cmds (inboundChannel botNick eventNick eventTarget)
      eventNick (stripFormatting raw) pfx =
      ⟨true, some cmdName, [cmdErrReply pfx cmdName e], true⟩ := by
    unfold handleRegisteredCommand
    rw [hparse]
    simp only [hfound, hthrow]
  simp only [handleIncomingMessage, hc]
  simp

/-- Witness for C4 at the message "!fail" with a throwing command "fail". -/
theorem C4_command_error_contained_witness :
    cmdParse (stripFormatting [33, 102, 97, 105, 108]) [33] =
      some ([102, 97, 105, 108], []) ∧
    (handleIncomingMessage
        (registerCommand [] ⟨[102, 97, 105, 108], [], fun _ => HRes.thrown [98, 111, 111, 109]⟩)
        [] true none [117] [35, 99] [33, 102, 97, 105, 108] [33]).stage = Stage.command ∧
    (handleIncomingMessage
        (registerCommand [] ⟨[102, 97, 105, 108], [], fun _ => HRes.thrown [98, 111, 111, 109]⟩)
        [] true none [117] [35, 99] [33, 102, 97, 105, 108] [33]).cmdRes =
      ⟨true, some [102, 97, 105, 108],
        [cmdErrReply [33] [102, 97, 105, 108] [98, 111, 111, 109]], true⟩ := by
  have hparse : cmdParse (stripFormatting [33, 102, 97, 105, 108]) [33] =
      some ([102, 97, 105, 108], []) := by
    have hs : stripFormatting [33, 102, 97, 105, 108] = [33, 102, 97, 105, 108] := by
      simp [stripFormatting]
    have hj : jsSplitWs [102, 97, 105, 108] = [[102, 97, 105, 108]] := by
      rw [jsSplitWs.eq_def]
      decide
    have htr : trim [33, 102, 97, 105, 108] = [33, 102, 97, 105, 108] := by decide
    rw [hs]
    unfold cmdParse
    rw [htr]
    simp [List.isPrefixOf, hj, toLowerAscii]
  have h := C4_command_error_contained
    (registerCommand [] ⟨[102, 97, 105, 108], [], fun _ => HRes.thrown [98, 111, 111, 109]⟩)
    [] true none [117] [35, 99] [33, 102, 97, 105, 108] [33]
    [102, 97, 105, 108] [] ⟨[102, 97, 105, 108], [], fun _ => HRes.thrown [98, 111, 111, 109]⟩
    [98, 111, 111, 109] hparse rfl rfl
  exact ⟨hparse, h.1, h.2.1⟩

lemma find?_cons_pos {α : Type} (f : α → Bool) (a : α) (l : List α) (h : f a = true) :
    (a :: l).find? f = some a := by
  simp [List.find?_cons, h]

lemma find?_cons_neg {α : Type} (f : α → Bool) (a : α) (l : List α) (h : f a = false) :
    (a :: l).find? f = l.find? f := by
  simp [List.find?_cons, h]

lemma takeWhile_cons_pos {α : Type} (f : α → Bool) (a : α) (l : List α) (h : f a = true) :
    (a :: l).takeWhile f = a :: l.takeWhile f := by
  simp [List.takeWhile_cons, h]

lemma takeWhile_cons_neg {α : Type} (f : α → Bool) (a : α) (l : List α) (h : f a = false) :
    (a :: l).takeWhile f = [] := by
  simp [List.takeWhile_cons, h]

/-- C5: parser dispatch tests patterns in registration order only up to the
first match; only the first matching parser's handler is invoked; a throwing
handler is logged and reported unhandled (false), allowing fallback to the
generic inject path; with no match every pattern is tested and the dispatch
is unhandled with nothing logged. -/
theorem C5_parser_first_match (ps : List MsgParser) (target sender content : JStr) :
    (ps.find? (fun p => p.pat content) = none →
      handleRegisteredParsers ps target sender content =
        ⟨false, ps.map (fun p => p.id), none, false⟩) ∧
    (∀ q, ps.find? (fun p => p.pat content) = some q →
      (handleRegisteredParsers ps target sender content).tested =
        ((ps.takeWhile (fun p => !p.pat content)).map (fun p => p.id)) ++ [q.id] ∧
      (handleRegisteredParsers ps target sender content).invoked = some q.id ∧
      (q.handler ⟨target, jstr "irc", sender, content⟩ = HRes.ok →
        (handleRegisteredParsers ps target sender content).handled = true ∧
        (handleRegisteredParsers ps target sender content).logged = false) ∧
      (∀ e, q.handler ⟨target, jstr "irc", sender, content⟩ = HRes.thrown e →
        (handleRegisteredParsers ps target sender content).handled = false ∧
        (handleRegisteredParsers ps target sender content).logged = true)) := by
  induction ps with
  | nil =>
    refine ⟨fun _ => rfl, fun q hq => ?_⟩
    simp [List.find?] at hq
  | cons p rest ih =>
    by_cases hm : p.pat content = true
    · constructor
      · intro hnone
        rw [find?_cons_pos (fun p => p.pat content) p rest hm] at hnone
        exact absurd hnone (by simp)
      · intro q hq
        rw [find?_cons_pos (fun p => p.pat content) p rest hm] at hq
        simp only [Option.some.injEq] at hq
        subst hq
        have htw : (p :: rest).takeWhile (fun p => !p.pat content) = [] :=
          takeWhile_cons_neg _ p rest (by simp [hm])
        rw [htw]
        unfold handleRegisteredParsers
        rw [if_pos hm]
        cases hh : p.handler ⟨target, jstr "irc", sender, content⟩ with
        | ok =>
          refine ⟨by simp, rfl, fun _ => ⟨rfl, rfl⟩, fun e he => ?_⟩
          exact absurd he (by simp)
        | thrown e0 =>
          refine ⟨by simp, rfl, fun hk => ?_, fun e he => ⟨rfl, rfl⟩⟩
          exact absurd hk (by simp)
    · have hmf : p.pat content = false := by
        simpa using hm
      have hstep : handleRegisteredParsers (p :: rest) target sender content =
          ⟨(handleRegisteredParsers rest target sender content).handled,
            p.id :: (handleRegisteredParsers rest target sender content).tested,
            (handleRegisteredParsers rest target sender content).invoked,
            (handleRegisteredParsers rest target sender content).logged⟩ := by
        conv_lhs => rw [handleRegisteredParsers]
        rw [if_neg hm]
      have hfind : (p :: rest).find? (fun p => p.pat content) =
          rest.find? (fun p => p.pat content) :=
        find?_cons_neg (fun p => p.pat content) p rest hmf
      constructor
      · intro hnone
        rw [hfind] at hnone
        rw [hstep, ih.1 hnone]
        simp
      · intro q hq
        rw [hfind] at hq
        obtain ⟨ht, hi, hok, hth⟩ := ih.2 q hq
        rw [hstep]
        refine ⟨?_, by simp [hi], fun hqok => ?_, fun e he => ?_⟩
        · rw [takeWhile_cons_pos (fun p => !p.pat content) p rest (by simp [hmf])]
          simp [ht]
        · exact ⟨by simp [(hok hqok).1], by simp [(hok hqok).2]⟩
        · exact ⟨by simp [(hth e he).1], by simp [(hth e he).2]⟩

/-- Witness for C5: two always-matching parsers, the first of which throws —
only the first is tested and invoked, the dispatch is unhandled and logged. -/
theorem C5_parser_first_match_witness :
    ([⟨[49], fun _ => true, fun _ => HRes.thrown [101]⟩,
      ⟨[50], fun _ => true, fun _ => HRes.ok⟩] : List MsgParser).find?
        (fun p => p.pat [109]) =
      some ⟨[49], fun _ => true, fun _ => HRes.thrown [101]⟩ ∧
    (handleRegisteredParsers
        [⟨[49], fun _ => true, fun _ => HRes.thrown [101]⟩,
         ⟨[50], fun _ => true, fun _ => HRes.ok⟩] [35] [117] [109]).tested = [[49]] ∧
    (handleRegisteredParsers
        [⟨[49], fun _ => true, fun _ => HRes.thrown [101]⟩,
         ⟨[50], fun _ => true, fun _ => HRes.ok⟩] [35] [117] [109]).handled = false ∧
    (handleRegisteredParsers
        [⟨[49], fun _ => true, fun _ => HRes.thrown [101]⟩,
         ⟨[50], fun _ => true, fun _ => HRes.ok⟩] [35] [117] [109]).logged = true := by
  have hfind : ([⟨[49], fun _ => true, fun _ => HRes.thrown [101]⟩,
      ⟨[50], fun _ => true, fun _ => HRes.ok⟩] : List MsgParser).find?
        (fun p => p.pat [109]) =
      some ⟨[49], fun _ => true, fun _ => HRes.thrown [101]⟩ := rfl
  have h := (C5_parser_first_match
    [⟨[49], fun _ => true, fun _ => HRes.thrown [101]⟩,
     ⟨[50], fun _ => true, fun _ => HRes.ok⟩] [35] [117] [109]).2
    ⟨[49], fun _ => true, fun _ => HRes.thrown [101]⟩ hfind
  refine ⟨hfind, ?_, (h.2.2.2 [101] rfl).1, (h.2.2.2 [101] rfl).2⟩
  rw [h.1]
  simp

/-! Lemmas for C6: the interaction of registration, lowercasing and lookup. -/

lemma dropWhile_eq_self_of_false (p : Nat → Bool) :
    ∀ s : JStr, (∀ u ∈ s, p u = false) → s.dropWhile p = s := by
  intro s
  induction s with
  | nil => intro _; rfl
  | cons u rest ih =>
    intro h
    rw [List.dropWhile_cons, if_neg (by simp [h u (by simp)])]

lemma dropWhile_eq_nil_of_true (p : Nat → Bool) :
    ∀ s : JStr, (∀ u ∈ s, p u = true) → s.dropWhile p = [] := by
  intro s
  induction s with
  | nil => intro _; rfl
  | cons u rest ih =>
    intro h
    rw [List.dropWhile_cons, if_pos (h u (by simp))]
    exact ih (fun v hv => h v (by simp [hv]))

lemma takeWhile_eq_self_of_true (p : Nat → Bool) :
    ∀ s : JStr, (∀ u ∈ s, p u = true) → s.takeWhile p = s := by
  intro s
  induction s with
  | nil => intro _; rfl
  | cons u rest ih =>
    intro h
    rw [List.takeWhile_cons, if_pos (h u (by simp))]
    rw [ih (fun v hv => h v (by simp [hv]))]

lemma trim_of_no_ws (s : JStr) (h : ∀ u ∈ s, isWS u = false) : trim s = s := by
  unfold trim trimStart trimEnd
  rw [dropWhile_eq_self_of_false isWS s.reverse (fun u hu => h u (by simpa using hu))]
  rw [List.reverse_reverse]
  exact dropWhile_eq_self_of_false isWS s h

lemma jsSplitWs_no_ws (tok : JStr) (h : ∀ u ∈ tok, isWS u = false) :
    jsSplitWs tok = [tok] := by
  rw [jsSplitWs.eq_def]
  split
  · rw [takeWhile_eq_self_of_true _ tok (fun u hu => by simp [h u hu])]
  · rename_i head rs heq
    exfalso
    have hmem : head ∈ tok := (List.dropWhile_sublist _).subset (by rw [heq]; simp)
    have hstop : (fun u => !isWS u) head = false := by
      revert heq
      generalize tok = l
      induction l with
      | nil => intro heq; simp [List.dropWhile] at heq
      | cons x xs ih =>
        intro heq
        rw [List.dropWhile_cons] at heq
        by_cases hx : (fun u => !isWS u) x = true
        · rw [if_pos hx] at heq
          exact ih heq
        · rw [if_neg hx] at heq
          injection heq with h1 _
          subst h1
          simpa using hx
    simp [h head hmem] at hstop

lemma mapGet_set_self {α : Type} (m : List (JStr × α)) (k : JStr) (v : α) :
    mapGet (mapSet m k v) k = some v := by
  induction m with
  | nil => simp [mapSet, mapGet]
  | cons e rest ih =>
    obtain ⟨k2, v2⟩ := e
    by_cases hk : k2 = k
    · subst hk
      simp [mapSet, mapGet]
    · simp only [mapSet, if_neg hk, mapGet]
      exact ih

lemma toLowerAscii_no_upper (s : JStr) : ∀ u ∈ toLowerAscii s, ¬(0x41 ≤ u ∧ u ≤ 0x5A) := by
  intro u hu
  simp only [toLowerAscii, List.mem_map] at hu
  obtain ⟨v, hv, rfl⟩ := hu
  by_cases h : 0x41 ≤ v ∧ v ≤ 0x5A
  · rw [if_pos h]
    omega
  · rw [if_neg h]
    exact h

lemma cmdParse_name_lower (content pfx name : JStr) (args : List JStr)
    (h : cmdParse content pfx = some (name, args)) : ∃ x, name = toLowerAscii x := by
  unfold cmdParse at h
  split at h
  · simp only [Option.some.injEq, Prod.mk.injEq] at h
    exact ⟨_, h.1.symm⟩
  · exact absurd h (by simp)

/-- C6 counterexample: a command registered under "Echo" (uppercase E) is
stored under the raw name while dispatch lowercases the incoming token, so
neither "!Echo" nor "!echo" resolves to it — the claim that uppercase-named
commands are still matched is false on the code. -/
theorem C6_cex :
    (handleRegisteredCommand
        (registerCommand [] ⟨[69, 99, 104, 111], [], fun _ => HRes.ok⟩)
        [35] [117] [33, 69, 99, 104, 111] [33]).handled = false ∧
    (handleRegisteredCommand
        (registerCommand [] ⟨[69, 99, 104, 111], [], fun _ => HRes.ok⟩)
        [35] [117] [33, 101, 99, 104, 111] [33]).handled = false ∧
    toLowerAscii [69, 99, 104, 111] = [101, 99, 104, 111] := by
  have hj1 : jsSplitWs [69, 99, 104, 111] = [[69, 99, 104, 111]] := by
    rw [jsSplitWs.eq_def]
    decide
  have hj2 : jsSplitWs [101, 99, 104, 111] = [[101, 99, 104, 111]] := by
    rw [jsSplitWs.eq_def]
    decide
  have hp1 : cmdParse [33, 69, 99, 104, 111] [33] = some ([101, 99, 104, 111], []) := by
    have htr : trim [33, 69, 99, 104, 111] = [33, 69, 99, 104, 111] := by decide
    unfold cmdParse
    rw [htr]
    simp [List.isPrefixOf, hj1, toLowerAscii]
  have hp2 : cmdParse [33, 101, 99, 104, 111] [33] = some ([101, 99, 104, 111], []) := by
    have htr : trim [33, 101, 99, 104, 111] = [33, 101, 99, 104, 111] := by decide
    unfold cmdParse
    rw [htr]
    simp [List.isPrefixOf, hj2, toLowerAscii]
  refine ⟨?_, ?_, by decide⟩
  · unfold handleRegisteredCommand
    rw [hp1]
    simp [registerCommand, mapSet, mapGet]
  · unfold handleRegisteredCommand
    rw [hp2]
    simp [registerCommand, mapSet, mapGet]

/-- C6 (amended): command-name matching lowercases the incoming token only,
while registration stores the exact name.  A just-registered command is found
for every case variant of the incoming token whose lowercase form equals the
stored name — so all-lowercase names match case-insensitively — but a command
whose stored name contains an uppercase ASCII letter is never found (shown
for a registry holding exactly that command, for every message). -/
theorem C6_case_matching (c : Command) (reg : List (JStr × Command))
    (pfx tok ch sender content : JStr)
    (hpfx : ∀ u ∈ pfx, isWS u = false) (htok : ∀ u ∈ tok, isWS u = false) :
    (toLowerAscii tok = c.name →
      (handleRegisteredCommand (registerCommand reg c) ch sender (pfx ++ tok) pfx).invoked =
        some c.name) ∧
    ((∃ u ∈ c.name, 0x41 ≤ u ∧ u ≤ 0x5A) →
      (handleRegisteredCommand (registerCommand [] c) ch sender content pfx).handled =
        false) := by
  constructor
  · intro hlow
    have hnows : ∀ u ∈ pfx ++ tok, isWS u = false := by
      intro u hu
      rcases List.mem_append.mp hu with h | h
      exacts [hpfx u h, htok u h]
    have hpref : pfx.isPrefixOf (pfx ++ tok) = true := by
      rw [List.isPrefixOf_iff_prefix]
      exact List.prefix_append pfx tok
    have hparse : cmdParse (pfx ++ tok) pfx = some (c.name, []) := by
      unfold cmdParse
      rw [trim_of_no_ws _ hnows, hpref]
      simp only [if_true]
      rw [List.drop_left pfx tok, jsSplitWs_no_ws tok htok]
      simp [hlow]
    unfold handleRegisteredCommand registerCommand
    rw [hparse]
    simp only [mapGet_set_self]
    cases c.handler ⟨ch, jstr "irc", sender, []⟩ <;> simp
  · intro hup
    unfold handleRegisteredCommand
    cases hp : cmdParse content pfx with
    | none => rfl
    | some pr =>
      obtain ⟨name, args⟩ := pr
      obtain ⟨x, rfl⟩ := cmdParse_name_lower content pfx name args hp
      have hne : ¬(c.name = toLowerAscii x) := by
        intro heq
        obtain ⟨u, hu, hrange⟩ := hup
        rw [heq] at hu
        exact toLowerAscii_no_upper x u hu hrange
      simp [registerCommand, mapSet, mapGet, hne]

/-- Witness for C6 (amended): the command "ping" is found for the incoming
token "PING". -/
theorem C6_case_matching_witness :
    toLowerAscii [80, 73, 78, 71] = ([112, 105, 110, 103] : JStr) ∧
    (handleRegisteredCommand
        (registerCommand [] ⟨[112, 105, 110, 103], [], fun _ => HRes.ok⟩)
        [35] [117] ([33] ++ [80, 73, 78, 71]) [33]).invoked =
      some [112, 105, 110, 103] := by
  have h := C6_case_matching ⟨[112, 105, 110, 103], [], fun _ => HRes.ok⟩ []
    [33] [80, 73, 78, 71] [35] [117] [109] (by decide) (by decide)
  exact ⟨by decide, h.1 (by decide)⟩

/-- C8 counterexample: shutdown does not deregister dispatch state.  A state
holding one registered command still holds it after shutdown — the registries
are module-level Maps in src/channel-provider.ts that plugin.shutdown never
touches. -/
theorem C8_cex :
    (shutdown ⟨true, true, true, true, true, true,
        registerCommand [] ⟨[112], [], fun _ => HRes.ok⟩, [], 0, 0, 0⟩).cmds ≠ [] := by
  simp [shutdown, registerCommand, mapSet]

/-- C8 (amended): shutdown clears and nulls the pacer, unregisters from the
host runtime, disconnects and nulls the wire client, and nulls the config and
context; the command and parser registries are left untouched (NOT cleared);
and a second shutdown is a no-op — it leaves the state unchanged, so in
particular no second wire quit is issued. -/
theorem C8_shutdown_idempotent (st : PluginState) :
    (shutdown st).floodProtOwned = false ∧ (shutdown st).floodProtRef = false ∧
    (shutdown st).client = false ∧ (shutdown st).clientRef = false ∧
    (shutdown st).cfg = false ∧ (shutdown st).hostCtx = false ∧
    (shutdown st).cmds = st.cmds ∧ (shutdown st).parsers = st.parsers ∧
    (shutdown st).quitCalls = st.quitCalls + (if st.client then 1 else 0) ∧
    shutdown (shutdown st) = shutdown st := by
  obtain ⟨fpo, fpr, hc, cl, clr, cfg, cmds, parsers, q, pc, up⟩ := st
  cases fpo <;> cases hc <;> cases cl <;> simp [shutdown]

/-- C9: for a private message — the target equals the bot's own current
nick — the pipeline uses the sender's nick as the channel identifier: the
dispatch calls receive it as the context channel, and every chunk the reply
closure emits is addressed to the sender, not to the original target. -/
theorem C9_private_message_channel (cmds : List (JStr × Command)) (ps : List MsgParser)
    (ctxPresent : Bool) (botNick : Option JStr) (eventNick eventTarget raw pfx : JStr)
    (hbot : botNick = some eventTarget) :
    (handleIncomingMessage cmds ps ctxPresent botNick eventNick eventTarget raw pfx).usedChannel
      = eventNick ∧
    (handleIncomingMessage cmds ps ctxPresent botNick eventNick eventTarget raw pfx).cmdRes
      = handleRegisteredCommand cmds eventNick eventNick (stripFormatting raw) pfx ∧
    ∀ (clientPresent : Bool) (cfgMaxLen : Option Int) (msg : JStr) (p : JStr × JStr),
      p ∈ replyFn clientPresent cfgMaxLen
          (handleIncomingMessage cmds ps ctxPresent botNick
            eventNick eventTarget raw pfx).usedChannel msg →
        p.1 = eventNick := by
  subst hbot
  have hch : inboundChannel (some eventTarget) eventNick eventTarget = eventNick := by
    simp [inboundChannel]
  have h1 : (handleIncomingMessage cmds ps ctxPresent (some eventTarget)
      eventNick eventTarget raw pfx).usedChannel = eventNick := by
    simp only [handleIncomingMessage, hch]
    split
    · rfl
    · split <;> rfl
  refine ⟨h1, ?_, ?_⟩
  · simp only [handleIncomingMessage, hch]
    split
    · rfl
    · split <;> rfl
  · intro clientPresent cfgMaxLen msg p hp
    rw [h1] at hp
    unfold replyFn at hp
    split at hp
    · simp at hp
    · simp only [List.mem_map] at hp
      obtain ⟨c, -, rfl⟩ := hp
      rfl

/-- Witness for C9 at a concrete private message. -/
theorem C9_private_message_channel_witness :
    (handleIncomingMessage [] [] false (some [98]) [110] [98] [104] [33]).usedChannel
      = [110] ∧
    (handleIncomingMessage [] [] false (some [98]) [110] [98] [104] [33]).cmdRes
      = handleRegisteredCommand [] [110] [110] (stripFormatting [104]) [33] :=
  ⟨(C9_private_message_channel [] [] false (some [98]) [110] [98] [104] [33] rfl).1,
   (C9_private_message_channel [] [] false (some [98]) [110] [98] [104] [33] rfl).2.1⟩

/-- C10: the nick handler calls changeNick with the configured desired nick
exactly when the event's nick differs from the bot's current nick and the
current nick differs from the desired nick; in every other case the handler
makes no changeNick call. -/
theorem C10_nick_reclaim (e cur des : JStr) :
    (e ≠ cur → cur ≠ des → onNickEvent e cur des = some des) ∧
    (e = cur ∨ cur = des → onNickEvent e cur des = none) := by
  constructor
  · intro h1 h2
    simp [onNickEvent, h1, h2]
  · intro h
    unfold onNickEvent
    rcases h with rfl | rfl <;> simp

/-- Witness for C10: a reclaim fires when both nicks differ, and no call is
made when the current nick already equals the desired nick. -/
theorem C10_nick_reclaim_witness :
    onNickEvent [97] [98] [99] = some [99] ∧ onNickEvent [97] [99] [99] = none :=
  ⟨(C10_nick_reclaim [97] [98] [99]).1 (by decide) (by decide),
   (C10_nick_reclaim [97] [99] [99]).2 (Or.inr rfl)⟩

/-! FloodProtector (src/message-utils.ts lines 94-141), modelled as a timed
event machine.  Enqueued actions are identified by number; `fire` is the
runtime invoking a due `setTimeout` callback; the single-threaded event loop
runs events in nondecreasing time order, and a timer never fires before its
scheduled time — these are the `traceOk` conditions. -/

/-- FloodProtector state: the queue of pending actions, the scheduled fire
time of the active cooldown timer if any, and the current `_delay`. -/
structure PacerState where
  queue : List Nat
  timer : Option Nat
  delay : Nat
deriving DecidableEq

/-- One executed action: its id, the time it ran, and the `_delay` value read
when its cooldown timer was armed right after it ran. -/
structure ExecRec where
  act : Nat
  time : Nat
  delayAtRun : Nat
deriving DecidableEq

/-- `some x` as a one-element list. -/
def optList {α : Type} : Option α → List α
  | some x => [x]
  | none => []

/-- `process()` at time t: return while a cooldown timer is active; otherwise
pop and synchronously run the head action, then arm the cooldown timer for
the current delay. -/
def pacerProcess (t : Nat) (s : PacerState) : PacerState × Option ExecRec :=
  match s.timer with
  | some _ => (s, none)
  | none =>
    match s.queue with
    | [] => (s, none)
    | a :: rest => (⟨rest, some (t + s.delay), s.delay⟩, some ⟨a, t, s.delay⟩)

/-- External events driving one FloodProtector instance. -/
inductive PEvent where
  | enq : Nat → PEvent
  | fire : PEvent
  | clear : PEvent
  | setDelay : Nat → PEvent
deriving DecidableEq

/-- `enqueue(fn)` pushes then calls process(); the timer callback nulls the
handle then calls process() (a fire with no armed timer is a no-op); `clear()`
empties the queue and cancels the timer; the delay setter stores the value. -/
def pacerStep (s : PacerState) (t : Nat) : PEvent → PacerState × Option ExecRec
  | .enq a => pacerProcess t ⟨s.queue ++ [a], s.timer, s.delay⟩
  | .fire =>
    match s.timer with
    | some _ => pacerProcess t ⟨s.queue, none, s.delay⟩
    | none => (s, none)
  | .clear => (⟨[], none, s.delay⟩, none)
  | .setDelay d => (⟨s.queue, s.timer, d⟩, none)

/-- Run a timed trace from a state, accumulating executions in order. -/
def pacerRun (s : PacerState) : List (Nat × PEvent) → PacerState × List ExecRec
  | [] => (s, [])
  | (t, e) :: rest =>
    ((pacerRun (pacerStep s t e).1 rest).1,
      optList (pacerStep s t e).2 ++ (pacerRun (pacerStep s t e).1 rest).2)

/-- Trace validity from a state at a time: event times are nondecreasing and
a fire event occurs only for an armed timer, at or after its scheduled time. -/
def traceOk (s : PacerState) (now : Nat) : List (Nat × PEvent) → Bool
  | [] => true
  | (t, e) :: rest =>
    decide (now ≤ t) &&
    (match e with
     | .fire =>
       match s.timer with
       | some ft => decide (ft ≤ t)
       | none => false
     | _ => true) &&
    traceOk (pacerStep s t e).1 t rest

/-- The enqueued action ids of a trace, in order. -/
def enqueuedIds : List (Nat × PEvent) → List Nat
  | [] => []
  | (_, .enq a) :: rest => a :: enqueuedIds rest
  | _ :: rest => enqueuedIds rest

/-- No clear() occurs in the trace. -/
def noClear : List (Nat × PEvent) → Bool
  | [] => true
  | (_, .clear) :: _ => false
  | _ :: rest => noClear rest

/-- Each execution starts no sooner than the delay recorded at the previous
execution after that previous execution started. -/
def spaced : List ExecRec → Bool
  | x :: y :: rest => decide (x.time + x.delayAtRun ≤ y.time) && spaced (y :: rest)
  | _ => true

/-- Machine invariant tying the armed timer to the last execution. -/
def pacerInv (s : PacerState) (now : Nat) (execs : List ExecRec) : Prop :=
  spaced execs = true ∧
  (∀ x, execs.getLast? = some x → x.time ≤ now) ∧
  (∀ ft, s.timer = some ft → ∃ x, execs.getLast? = some x ∧ ft = x.time + x.delayAtRun) ∧
  (s.timer = none → ∀ x, execs.getLast? = some x → x.time + x.delayAtRun ≤ now)

lemma spaced_append (l : List ExecRec) (y : ExecRec) (h : spaced l = true)
    (hl : ∀ x, l.getLast? = some x → x.time + x.delayAtRun ≤ y.time) :
    spaced (l ++ [y]) = true := by
  induction l with
  | nil => simp [spaced]
  | cons a rest ih =>
    cases rest with
    | nil =>
      have := hl a (by simp)
      simp [spaced, this]
    | cons b rest2 =>
      have hs : spaced (a :: b :: rest2) = true := h
      simp only [spaced, Bool.and_eq_true, decide_eq_true_eq] at hs
      have htail := ih hs.2 (fun x hx => hl x (by rw [List.getLast?_cons_cons]; exact hx))
      simp only [List.cons_append, spaced, Bool.and_eq_true, decide_eq_true_eq]
      exact ⟨hs.1, by simpa using htail⟩

lemma pacerInv_mono (s s2 : PacerState) (now t : Nat) (execs : List ExecRec)
    (h : pacerInv s now execs) (hle : now ≤ t) (htimer : s2.timer = s.timer) :
    pacerInv s2 t execs := by
  obtain ⟨hsp, hlast, hsome, hnone⟩ := h
  refine ⟨hsp, fun x hx => le_trans (hlast x hx) hle, ?_, ?_⟩
  · intro ft hft
    exact hsome ft (htimer ▸ hft)
  · intro hn x hx
    exact le_trans (hnone (htimer ▸ hn) x hx) hle

lemma pacerInv_run (qrest : List Nat) (t d a : Nat) (execs : List ExecRec)
    (hsp : spaced execs = true)
    (hlastle : ∀ x, execs.getLast? = some x → x.time + x.delayAtRun ≤ t) :
    pacerInv ⟨qrest, some (t + d), d⟩ t (execs ++ [⟨a, t, d⟩]) := by
  refine ⟨spaced_append execs _ hsp hlastle, ?_, ?_, ?_⟩
  · intro x hx
    rw [List.getLast?_concat] at hx
    cases hx
    exact le_refl t
  · intro ft hft
    simp only [Option.some.injEq] at hft
    exact ⟨⟨a, t, d⟩, List.getLast?_concat _, hft.symm⟩
  · intro hn
    simp at hn

lemma pacerStep_inv (s : PacerState) (now t : Nat) (e : PEvent) (execs : List ExecRec)
    (hinv : pacerInv s now execs) (hle : now ≤ t)
    (hfire : ∀ ft, e = PEvent.fire → s.timer = some ft → ft ≤ t)
    (hne : e ≠ PEvent.clear) :
    pacerInv (pacerStep s t e).1 t (execs ++ optList (pacerStep s t e).2) := by
  obtain ⟨hsp, hlast, hsome, hnone⟩ := hinv
  cases e with
  | setDelay d =>
    have hstep : pacerStep s t (PEvent.setDelay d) = (⟨s.queue, s.timer, d⟩, none) := rfl
    rw [hstep]
    simp only [optList, List.append_nil]
    exact pacerInv_mono s _ now t execs ⟨hsp, hlast, hsome, hnone⟩ hle rfl
  | clear => exact absurd rfl hne
  | fire =>
    cases htm : s.timer with
    | none =>
      have hstep : pacerStep s t PEvent.fire = (s, none) := by
        simp [pacerStep, htm]
      rw [hstep]
      simp only [optList, List.append_nil]
      exact pacerInv_mono s s now t execs ⟨hsp, hlast, hsome, hnone⟩ hle rfl
    | some ft =>
      have hftle : ft ≤ t := hfire ft rfl htm
      obtain ⟨w, hw, hwft⟩ := hsome ft htm
      cases hq : s.queue with
      | nil =>
        have hstep : pacerStep s t PEvent.fire = (⟨[], none, s.delay⟩, none) := by
          simp [pacerStep, htm, pacerProcess, hq]
        rw [hstep]
        simp only [optList, List.append_nil]
        refine ⟨hsp, fun x hx => le_trans (hlast x hx) hle, ?_, ?_⟩
        · intro ft2 hft2
          simp at hft2
        · intro _ x hx
          rw [hw] at hx
          cases hx
          omega
      | cons a qrest =>
        have hstep : pacerStep s t PEvent.fire =
            (⟨qrest, some (t + s.delay), s.delay⟩, some ⟨a, t, s.delay⟩) := by
          simp [pacerStep, htm, pacerProcess, hq]
        rw [hstep]
        simp only [optList]
        refine pacerInv_run qrest t s.delay a execs hsp ?_
        intro x hx
        rw [hw] at hx
        cases hx
        omega
  | enq a =>
    cases htm : s.timer with
    | some ft =>
      have hstep : pacerStep s t (PEvent.enq a) =
          (⟨s.queue ++ [a], some ft, s.delay⟩, none) := by
        simp [pacerStep, htm, pacerProcess]
      rw [hstep]
      simp only [optList, List.append_nil]
      refine pacerInv_mono s _ now t execs ⟨hsp, hlast, hsome, hnone⟩ hle ?_
      simp [htm]
    | none =>
      cases hq : s.queue ++ [a] with
      | nil => simp at hq
      | cons h qtail =>
        have hstep : pacerStep s t (PEvent.enq a) =
            (⟨qtail, some (t + s.delay), s.delay⟩, some ⟨h, t, s.delay⟩) := by
          simp only [pacerStep, pacerProcess, htm, hq]
        rw [hstep]
        simp only [optList]
        refine pacerInv_run qtail t s.delay h execs hsp ?_
        intro x hx
        exact le_trans (hnone htm x hx) hle

lemma pacerRun_spaced : ∀ (tr : List (Nat × PEvent)) (s : PacerState) (now : Nat)
    (execs : List ExecRec), traceOk s now tr = true → noClear tr = true →
    pacerInv s now execs → spaced (execs ++ (pacerRun s tr).2) = true := by
  intro tr
  induction tr with
  | nil =>
    intro s now execs _ _ hinv
    simpa [pacerRun] using hinv.1
  | cons te rest ih =>
    obtain ⟨t, e⟩ := te
    intro s now execs hok hnc hinv
    simp only [traceOk, Bool.and_eq_true, decide_eq_true_eq] at hok
    obtain ⟨⟨hlet, hfireok⟩, hrest⟩ := hok
    have hfire : ∀ ft, e = PEvent.fire → s.timer = some ft → ft ≤ t := by
      intro ft he htm
      subst he
      rw [htm] at hfireok
      simpa using hfireok
    have hne : e ≠ PEvent.clear := by
      intro he
      subst he
      simp [noClear] at hnc
    have hnc' : noClear rest = true := by
      cases e <;> simpa [noClear] using hnc
    have hinv' := pacerStep_inv s now t e execs hinv hlet hfire hne
    have hrec := ih (pacerStep s t e).1 t (execs ++ optList (pacerStep s t e).2) hrest hnc' hinv'
    simpa [pacerRun, List.append_assoc] using hrec

lemma pacerProcess_queue (t : Nat) (s : PacerState) :
    ((optList (pacerProcess t s).2).map (fun x => x.act)) ++ (pacerProcess t s).1.queue =
      s.queue := by
  cases htm : s.timer with
  | some ft => simp [pacerProcess, htm, optList]
  | none =>
    cases hq : s.queue with
    | nil => simp [pacerProcess, htm, hq, optList]
    | cons a rest => simp [pacerProcess, htm, hq, optList]

lemma pacerStep_queue (s : PacerState) (t : Nat) (e : PEvent) (hne : e ≠ PEvent.clear) :
    ((optList (pacerStep s t e).2).map (fun x => x.act)) ++ (pacerStep s t e).1.queue =
      s.queue ++ (match e with | PEvent.enq a => [a] | _ => []) := by
  cases e with
  | enq a =>
    have h := pacerProcess_queue t ⟨s.queue ++ [a], s.timer, s.delay⟩
    simpa [pacerStep] using h
  | fire =>
    cases htm : s.timer with
    | some ft =>
      have h := pacerProcess_queue t ⟨s.queue, none, s.delay⟩
      simp only [pacerStep, htm]
      simpa using h
    | none => simp [pacerStep, htm, optList]
  | clear => exact absurd rfl hne
  | setDelay d => simp [pacerStep, optList]

lemma pacerRun_fifo : ∀ (tr : List (Nat × PEvent)) (s : PacerState), noClear tr = true →
    ((pacerRun s tr).2.map (fun x => x.act)) ++ (pacerRun s tr).1.queue =
      s.queue ++ enqueuedIds tr := by
  intro tr
  induction tr with
  | nil =>
    intro s _
    simp [pacerRun, enqueuedIds]
  | cons te rest ih =>
    obtain ⟨t, e⟩ := te
    intro s hnc
    have hne : e ≠ PEvent.clear := by
      intro he
      subst he
      simp [noClear] at hnc
    have hnc' : noClear rest = true := by
      cases e <;> simpa [noClear] using hnc
    have hstep := pacerStep_queue s t e hne
    have hrec := ih (pacerStep s t e).1 hnc'
    have hassoc : ((pacerRun s ((t, e) :: rest)).2.map (fun x => x.act)) ++
        (pacerRun s ((t, e) :: rest)).1.queue =
        ((optList (pacerStep s t e).2).map (fun x => x.act)) ++
          (((pacerRun (pacerStep s t e).1 rest).2.map (fun x => x.act)) ++
            (pacerRun (pacerStep s t e).1 rest).1.queue) := by
      simp [pacerRun, List.append_assoc]
    rw [hassoc, hrec, ← List.append_assoc, hstep]
    cases e with
    | enq a => simp [enqueuedIds]
    | fire => simp [enqueuedIds]
    | clear => exact absurd rfl hne
    | setDelay d => simp [enqueuedIds]

/-- C7: for one FloodProtector driven by a well-formed clear-free timed trace
from the idle initial state: (FIFO) the executed actions followed by the still
queued ones are exactly the enqueued actions in enqueue order — so the i-th
execution is the i-th enqueue; (pacing) each execution starts no sooner than
the delay value read at the previous execution after that execution started,
regardless of enqueue timing; and (immediate first) an enqueue on an idle
pacer runs the action synchronously, at the enqueue's own time, during the
enqueue step itself. -/
theorem C7_flood_pacer (tr : List (Nat × PEvent)) (d0 : Nat)
    (hok : traceOk ⟨[], none, d0⟩ 0 tr = true) (hnc : noClear tr = true) :
    ((pacerRun ⟨[], none, d0⟩ tr).2.map (fun x => x.act)) ++
        (pacerRun ⟨[], none, d0⟩ tr).1.queue = enqueuedIds tr ∧
    spaced (pacerRun ⟨[], none, d0⟩ tr).2 = true ∧
    (∀ (s : PacerState) (t a : Nat), s.timer = none → s.queue = [] →
      pacerStep s t (PEvent.enq a) =
        (⟨[], some (t + s.delay), s.delay⟩, some ⟨a, t, s.delay⟩)) := by
  refine ⟨?_, ?_, ?_⟩
  · have h := pacerRun_fifo tr ⟨[], none, d0⟩ hnc
    simpa using h
  · have hinv0 : pacerInv ⟨[], none, d0⟩ 0 [] := by
      refine ⟨rfl, ?_, ?_, ?_⟩
      · intro x hx
        simp at hx
      · intro ft hft
        simp at hft
      · intro _ x hx
        simp at hx
    have h := pacerRun_spaced tr ⟨[], none, d0⟩ 0 [] hok hnc hinv0
    simpa using h
  · intro s t a htm hq
    obtain ⟨queue, timer, delay⟩ := s
    simp only at htm hq
    subst htm
    subst hq
    simp [pacerStep, pacerProcess]

/-- Witness for C7: delay 5, two enqueues at time 0, a delay change to 7, and
timer fires at times 5 and 12 — action 1 runs at 0, action 2 only when the
timer fires at 5 = 0 + 5, and the spacing respects the recorded delays. -/
theorem C7_flood_pacer_witness :
    traceOk ⟨[], none, 5⟩ 0
        [(0, PEvent.enq 1), (0, PEvent.enq 2), (3, PEvent.setDelay 7),
         (5, PEvent.fire), (12, PEvent.fire)] = true ∧
    noClear [(0, PEvent.enq 1), (0, PEvent.enq 2), (3, PEvent.setDelay 7),
         (5, PEvent.fire), (12, PEvent.fire)] = true ∧
    (pacerRun ⟨[], none, 5⟩
        [(0, PEvent.enq 1), (0, PEvent.enq 2), (3, PEvent.setDelay 7),
         (5, PEvent.fire), (12, PEvent.fire)]).2 =
      [⟨1, 0, 5⟩, ⟨2, 5, 7⟩] ∧
    (((pacerRun ⟨[], none, 5⟩
        [(0, PEvent.enq 1), (0, PEvent.enq 2), (3, PEvent.setDelay 7),
         (5, PEvent.fire), (12, PEvent.fire)]).2.map (fun x => x.act)) ++
        (pacerRun ⟨[], none, 5⟩
        [(0, PEvent.enq 1), (0, PEvent.enq 2), (3, PEvent.setDelay 7),
         (5, PEvent.fire), (12, PEvent.fire)]).1.queue =
      enqueuedIds [(0, PEvent.enq 1), (0, PEvent.enq 2), (3, PEvent.setDelay 7),
         (5, PEvent.fire), (12, PEvent.fire)] ∧
    spaced (pacerRun ⟨[], none, 5⟩
        [(0, PEvent.enq 1), (0, PEvent.enq 2), (3, PEvent.setDelay 7),
         (5, PEvent.fire), (12, PEvent.fire)]).2 = true) :=
  ⟨by decide, by decide, by decide,
    (C7_flood_pacer
      [(0, PEvent.enq 1), (0, PEvent.enq 2), (3, PEvent.setDelay 7),
       (5, PEvent.fire), (12, PEvent.fire)] 5 (by decide) (by decide)).1,
    (C7_flood_pacer
      [(0, PEvent.enq 1), (0, PEvent.enq 2), (3, PEvent.setDelay 7),
       (5, PEvent.fire), (12, PEvent.fire)] 5 (by decide) (by decide)).2.1⟩

end Irc
